import Mathlib

/-!
# Verification of the SVG vector editor's geometry-editing core

This file gives a shallow embedding, over exact rational coordinates, of the
geometry-editing core of the browser-based SVG vector editor: the shape
abstraction (`shapes.js`), the path-segment builder and serializer of the
drawing tools (`drawing-tools.js`), the anchor/control-point geometry updates
(`AnchorPointsManager`), and the repeat-points engine
(`repeat-points-manager.js`).  The editor stores geometry in SVG attributes and
re-parses path data with regular expressions; the embedding works directly on
the parsed values: a path's `d` attribute is embedded as its list of
successfully parsed `M`/`L`/`C` commands, and numeric attributes as rationals.
The browser's path-length API (`getTotalLength` / `getPointAtLength`), which is
external to the repository, is passed in as explicit function parameters.
-/

namespace Repeater

/-- A 2-D point with exact rational coordinates. -/
structure Pt where
  x : ℚ
  y : ℚ
deriving DecidableEq, Repr

/-- The style attributes that each shape's `clone()` copies over:
`stroke`, `fill`, `stroke-width`, `opacity` (absent attributes are `none`). -/
structure StyleAttrs where
  stroke : Option String
  fill : Option String
  strokeWidth : Option String
  opacity : Option String
deriving DecidableEq, Repr

/-- A style record with every attribute absent. -/
def noStyle : StyleAttrs := ⟨none, none, none, none⟩

/-- One parsed command of a path's `d` attribute.  The sources split the
string with the regex `[MLC]\s*([^MLC]+)` and read the coordinates with
`[-\d.]+` groups; this type is the list element produced by that parse. -/
inductive PathCmd where
  | moveTo (p : Pt)
  | lineTo (p : Pt)
  | curveTo (c1 c2 e : Pt)
deriving DecidableEq, Repr

/-- The four supported shape kinds, with their geometry-defining attributes
and the style attributes carried by the SVG element (`shapes.js`). -/
inductive Shape where
  | line (x1 y1 x2 y2 : ℚ) (style : StyleAttrs)
  | rect (x y width height : ℚ) (style : StyleAttrs)
  | circle (cx cy r : ℚ) (style : StyleAttrs)
  | path (d : List PathCmd) (style : StyleAttrs)
deriving DecidableEq, Repr

/-- A document element: either one of the four supported shape kinds or an
element with an unsupported tag name (the `default` case of the tag-name
switches in `repeat-points-manager.js`). -/
inductive Element where
  | shape (s : Shape)
  | other
deriving DecidableEq, Repr

/-- The first `M x y` match anywhere in the path data: the regex
`/M\s*([-\d.]+)\s+([-\d.]+)/` of `PathShape.getReferencePoint` finds the
first `M` command regardless of its position. -/
def findFirstMove : List PathCmd → Option Pt
  | [] => none
  | .moveTo p :: _ => some p
  | .lineTo _ :: rest => findFirstMove rest
  | .curveTo _ _ _ :: rest => findFirstMove rest

/-- `getReferencePoint` of `shapes.js`: Line → (x1,y1); Rectangle → (x,y);
Circle → (cx,cy); Path → coordinates of the first `M` match, `none` when the
path data has no `M` command. -/
def Shape.getReferencePoint : Shape → Option Pt
  | .line x1 y1 _ _ _ => some ⟨x1, y1⟩
  | .rect x y _ _ _ => some ⟨x, y⟩
  | .circle cx cy _ _ => some ⟨cx, cy⟩
  | .path d _ => findFirstMove d

/-- Offsetting a single parsed path command, as in the command map of
`PathShape.move`: `M`/`L` shift their point, `C` shifts all three points. -/
def movePathCmd (dx dy : ℚ) : PathCmd → PathCmd
  | .moveTo p => .moveTo ⟨p.x + dx, p.y + dy⟩
  | .lineTo p => .lineTo ⟨p.x + dx, p.y + dy⟩
  | .curveTo c1 c2 e =>
      .curveTo ⟨c1.x + dx, c1.y + dy⟩ ⟨c2.x + dx, c2.y + dy⟩ ⟨e.x + dx, e.y + dy⟩

/-- Whether the first parsed command of a path's data is an `M` (the
`commands[0].startsWith('M')` guard of `PathShape.move`). -/
def headIsMove : List PathCmd → Bool
  | .moveTo _ :: _ => true
  | _ => false

/-- `PathShape.move`: if the command list is empty, or its first command is
not an `M` (so the `firstPoint` match fails), the move is a no-op; otherwise
every command is shifted by the offset. -/
def movePathData (d : List PathCmd) (dx dy : ℚ) : List PathCmd :=
  if headIsMove d then d.map (movePathCmd dx dy) else d

/-- `move(dx, dy)` of `shapes.js`: shifts the geometry attributes of the
shape and leaves `width`/`height`/`r` and the style attributes untouched. -/
def Shape.move : Shape → ℚ → ℚ → Shape
  | .line x1 y1 x2 y2 st, dx, dy => .line (x1 + dx) (y1 + dy) (x2 + dx) (y2 + dy) st
  | .rect x y w h st, dx, dy => .rect (x + dx) (y + dy) w h st
  | .circle cx cy r st, dx, dy => .circle (cx + dx) (cy + dy) r st
  | .path d st, dx, dy => .path (movePathData d dx dy) st

/-- `clone()` of `shapes.js` copies the geometry attributes and the four
style attributes into a fresh element; on the structured value this deep copy
is the identity. -/
def Shape.clone (s : Shape) : Shape := s

/-- Composing two command offsets equals one offset by the summed deltas. -/
lemma movePathCmd_movePathCmd (dx1 dy1 dx2 dy2 : ℚ) (c : PathCmd) :
    movePathCmd dx2 dy2 (movePathCmd dx1 dy1 c) =
      movePathCmd (dx1 + dx2) (dy1 + dy2) c := by
  cases c <;>
    simp only [movePathCmd, PathCmd.moveTo.injEq, PathCmd.lineTo.injEq,
      PathCmd.curveTo.injEq, Pt.mk.injEq] <;>
    and_intros <;> ring

/-- Offsetting the commands does not change whether the head is an `M`. -/
lemma headIsMove_map (d : List PathCmd) (dx dy : ℚ) :
    headIsMove (d.map (movePathCmd dx dy)) = headIsMove d := by
  match d with
  | [] => rfl
  | .moveTo _ :: _ => rfl
  | .lineTo _ :: _ => rfl
  | .curveTo _ _ _ :: _ => rfl

/-- Composing two path-data moves equals one move by the summed deltas. -/
lemma movePathData_movePathData (d : List PathCmd) (dx1 dy1 dx2 dy2 : ℚ) :
    movePathData (movePathData d dx1 dy1) dx2 dy2 =
      movePathData d (dx1 + dx2) (dy1 + dy2) := by
  by_cases h : headIsMove d
  · have hmap : ∀ c, movePathCmd dx2 dy2 (movePathCmd dx1 dy1 c) =
        movePathCmd (dx1 + dx2) (dy1 + dy2) c :=
      movePathCmd_movePathCmd dx1 dy1 dx2 dy2
    simp [movePathData, h, headIsMove_map, List.map_map, Function.comp_def, hmap]
  · simp [movePathData, h]

/-- **C7** Translation is composable: for every shape of any of the four
kinds, `translate(translate(s, dx1, dy1), dx2, dy2) = translate(s, dx1+dx2,
dy1+dy2)`; moreover each kind's `move` shifts exactly the coordinate-bearing
fields (for a path whose data starts with `M`, every command's points) and
leaves `width`, `height`, `r` and the style attributes unchanged. -/
theorem translate_composable :
    (∀ (s : Shape) (dx1 dy1 dx2 dy2 : ℚ),
      (s.move dx1 dy1).move dx2 dy2 = s.move (dx1 + dx2) (dy1 + dy2))
  ∧ (∀ (x1 y1 x2 y2 dx dy : ℚ) (st : StyleAttrs),
      (Shape.line x1 y1 x2 y2 st).move dx dy =
        Shape.line (x1 + dx) (y1 + dy) (x2 + dx) (y2 + dy) st)
  ∧ (∀ (x y w h dx dy : ℚ) (st : StyleAttrs),
      (Shape.rect x y w h st).move dx dy = Shape.rect (x + dx) (y + dy) w h st)
  ∧ (∀ (cx cy r dx dy : ℚ) (st : StyleAttrs),
      (Shape.circle cx cy r st).move dx dy = Shape.circle (cx + dx) (cy + dy) r st)
  ∧ (∀ (p : Pt) (rest : List PathCmd) (dx dy : ℚ) (st : StyleAttrs),
      (Shape.path (.moveTo p :: rest) st).move dx dy =
        Shape.path ((PathCmd.moveTo p :: rest).map (movePathCmd dx dy)) st) := by
  refine ⟨?_, ?_, ?_, ?_, ?_⟩
  · intro s dx1 dy1 dx2 dy2
    cases s with
    | line x1 y1 x2 y2 st =>
        simp only [Shape.move, Shape.line.injEq]; and_intros <;> ring
    | rect x y w h st =>
        simp only [Shape.move, Shape.rect.injEq]; and_intros <;> ring
    | circle cx cy r st =>
        simp only [Shape.move, Shape.circle.injEq]; and_intros <;> ring
    | path d st => simp [Shape.move, movePathData_movePathData]
  · intro x1 y1 x2 y2 dx dy st; rfl
  · intro x y w h dx dy st; rfl
  · intro cx cy r dx dy st; rfl
  · intro p rest dx dy st; rfl

/-! ## Anchor-point editing: rectangle corner drags and path anchor moves -/

/-- The geometry attributes of a `rect` element. -/
structure RectGeom where
  x : ℚ
  y : ℚ
  width : ℚ
  height : ℚ
deriving DecidableEq, Repr

/-- `updateRectGeometry` of the anchor-points manager: dragging corner
`pointIndex` (0 top-left, 1 top-right, 2 bottom-right, 3 bottom-left) to
`(newX, newY)` recomputes `x, y, width, height`, then clamps `width` and
`height` with `Math.max(0, ·)`. -/
def updateRectGeometry (r : RectGeom) (pointIndex : ℕ) (newX newY : ℚ) : RectGeom :=
  let upd : RectGeom :=
    match pointIndex with
    | 0 => ⟨newX, newY, r.width + (r.x - newX), r.height + (r.y - newY)⟩
    | 1 => ⟨r.x, newY, newX - r.x, r.height + (r.y - newY)⟩
    | 2 => ⟨r.x, r.y, newX - r.x, newY - r.y⟩
    | 3 => ⟨newX, r.y, r.width + (r.x - newX), newY - r.y⟩
    | _ => r
  ⟨upd.x, upd.y, max 0 upd.width, max 0 upd.height⟩

/-- **C3 (counterexample)** Dragging corner 0 of the rectangle
`(x, y, width, height) = (0, 0, 10, 10)` to `(20, 20)` — a position
right-and-below the bottom-right corner `(10, 10)` — does not flip the
rectangle: the code clamps `width` and `height` to `0` and puts `x, y` at the
dragged position, yielding `(20, 20, 0, 0)` instead of the claimed
`(10, 10, 10, 10)`. -/
theorem updateRectGeometry_no_flip :
    updateRectGeometry ⟨0, 0, 10, 10⟩ 0 20 20 = ⟨20, 20, 0, 0⟩ ∧
    ¬ updateRectGeometry ⟨0, 0, 10, 10⟩ 0 20 20 = ⟨10, 10, 10, 10⟩ := by
  constructor
  · show RectGeom.mk _ _ (max 0 (10 + (0 - 20))) (max 0 (10 + (0 - 20))) = _
    norm_num
  · intro h
    have := congrArg RectGeom.x h
    norm_num [updateRectGeometry] at this

/-- **C3 (amended)** Dragging corner `i` of a rectangle keeps the opposite
corner fixed and moves the dragged corner to the new position as long as the
new position has not crossed the opposite corner; `width` and `height` are
always clamped to `≥ 0`; a corner dragged past the opposite corner does not
flip the rectangle but collapses the crossed dimension to `0` with `x`/`y`
at the dragged position (concretely, dragging corner 0 of `(0,0,10,10)` to
`(20,20)` yields `(20,20,0,0)`). -/
theorem updateRectGeometry_spec (x y w h newX newY : ℚ) :
    (∀ i : ℕ, 0 ≤ (updateRectGeometry ⟨x, y, w, h⟩ i newX newY).width
      ∧ 0 ≤ (updateRectGeometry ⟨x, y, w, h⟩ i newX newY).height)
  ∧ (newX ≤ x + w → newY ≤ y + h →
      updateRectGeometry ⟨x, y, w, h⟩ 0 newX newY =
        ⟨newX, newY, (x + w) - newX, (y + h) - newY⟩)
  ∧ (x ≤ newX → newY ≤ y + h →
      updateRectGeometry ⟨x, y, w, h⟩ 1 newX newY =
        ⟨x, newY, newX - x, (y + h) - newY⟩)
  ∧ (x ≤ newX → y ≤ newY →
      updateRectGeometry ⟨x, y, w, h⟩ 2 newX newY =
        ⟨x, y, newX - x, newY - y⟩)
  ∧ (newX ≤ x + w → y ≤ newY →
      updateRectGeometry ⟨x, y, w, h⟩ 3 newX newY =
        ⟨newX, y, (x + w) - newX, newY - y⟩)
  ∧ (x + w ≤ newX → y + h ≤ newY →
      updateRectGeometry ⟨x, y, w, h⟩ 0 newX newY = ⟨newX, newY, 0, 0⟩) := by
  refine ⟨?_, ?_, ?_, ?_, ?_, ?_⟩
  · intro i
    exact ⟨le_max_left 0 _, le_max_left 0 _⟩
  · intro hx hy
    simp only [updateRectGeometry, RectGeom.mk.injEq]
    refine ⟨trivial, trivial, ?_, ?_⟩
    · rw [max_eq_right (by linarith)]; ring
    · rw [max_eq_right (by linarith)]; ring
  · intro hx hy
    simp only [updateRectGeometry, RectGeom.mk.injEq]
    refine ⟨trivial, trivial, ?_, ?_⟩
    · rw [max_eq_right (by linarith)]
    · rw [max_eq_right (by linarith)]; ring
  · intro hx hy
    simp only [updateRectGeometry, RectGeom.mk.injEq]
    exact ⟨trivial, trivial, max_eq_right (by linarith), max_eq_right (by linarith)⟩
  · intro hx hy
    simp only [updateRectGeometry, RectGeom.mk.injEq]
    refine ⟨trivial, trivial, ?_, max_eq_right (by linarith)⟩
    rw [max_eq_right (by linarith)]; ring
  · intro hx hy
    simp only [updateRectGeometry, RectGeom.mk.injEq]
    exact ⟨trivial, trivial, max_eq_left (by linarith), max_eq_left (by linarith)⟩

/-- **C3 (witness)** The amended rectangle-drag theorem applied to the
rectangle `(0,0,10,10)`: an in-range drag of corner 0 to `(2,3)` keeps the
bottom-right corner at `(10,10)`, and the out-of-range drag to `(20,20)`
collapses the rectangle at the dragged position. -/
theorem updateRectGeometry_spec_witness :
    ((20:ℚ) ≤ 0 + 10 → (20:ℚ) ≤ 0 + 10 →
      updateRectGeometry ⟨0, 0, 10, 10⟩ 0 20 20 =
        ⟨20, 20, (0 + 10) - 20, (0 + 10) - 20⟩)
  ∧ ((0:ℚ) + 10 ≤ 20 → (0:ℚ) + 10 ≤ 20 →
      updateRectGeometry ⟨0, 0, 10, 10⟩ 0 20 20 = ⟨20, 20, 0, 0⟩) :=
  ⟨(updateRectGeometry_spec 0 0 10 10 20 20).2.1,
   (updateRectGeometry_spec 0 0 10 10 20 20).2.2.2.2.2⟩

/-- `updatePathGeometry` of the anchor-points manager: anchor `pointIndex`
counts the parsed commands in order (each `M`, `L` or `C` contributes exactly
one anchor — the end point for a `C`), so the moved command is the one at
position `pointIndex`; an out-of-range index leaves the data unchanged.
`M`/`L` get the new coordinates; for a `C`, both control points are shifted
by the same offset `new − oldEnd` as the end point. -/
def updatePathGeometry (cmds : List PathCmd) (pointIndex : ℕ) (newX newY : ℚ) :
    List PathCmd :=
  match cmds[pointIndex]? with
  | none => cmds
  | some cmd =>
      cmds.set pointIndex
        (match cmd with
         | .moveTo _ => .moveTo ⟨newX, newY⟩
         | .lineTo _ => .lineTo ⟨newX, newY⟩
         | .curveTo c1 c2 e =>
             .curveTo ⟨c1.x + (newX - e.x), c1.y + (newY - e.y)⟩
                      ⟨c2.x + (newX - e.x), c2.y + (newY - e.y)⟩
                      ⟨newX, newY⟩)

/-- **C4 (counterexample)** Moving the end of the curve segment
`{start:(0,0), control1:(10,0), control2:(20,10), end:(30,10)}` to `(40,20)`
yields `control1 = (20,10)`: since the segment's start `(0,0)` does not move,
`control1 − start` changes from `(10,0)` to `(20,10)` — it is *not* invariant
as the claim states. -/
theorem updatePathGeometry_control1_start_not_invariant :
    updatePathGeometry
        [PathCmd.moveTo ⟨0, 0⟩, PathCmd.curveTo ⟨10, 0⟩ ⟨20, 10⟩ ⟨30, 10⟩] 1 40 20 =
      [PathCmd.moveTo ⟨0, 0⟩, PathCmd.curveTo ⟨20, 10⟩ ⟨30, 20⟩ ⟨40, 20⟩] ∧
    ¬ ((20:ℚ) - 0 = 10 - 0 ∧ (10:ℚ) - 0 = 0 - 0) := by
  constructor
  · show List.set _ 1 (PathCmd.curveTo ⟨10 + (40 - 30), 0 + (20 - 10)⟩
      ⟨20 + (40 - 30), 10 + (20 - 10)⟩ ⟨40, 20⟩) = _
    norm_num
  · intro h
    have := h.1
    norm_num at this

/-- **C4 (amended)** Moving the end anchor of a `C` segment to `(newX,newY)`
shifts both control points by the same delta `new − oldEnd` as the end point;
this leaves `control2 − end` and `control1 − control2` invariant, while
`control1 − start` changes by exactly that delta (the start anchor itself
does not move). -/
theorem updatePathGeometry_curve_end (cmds : List PathCmd) (i : ℕ)
    (c1 c2 e : Pt) (newX newY : ℚ)
    (hc : cmds[i]? = some (.curveTo c1 c2 e)) :
    updatePathGeometry cmds i newX newY =
      cmds.set i (.curveTo ⟨c1.x + (newX - e.x), c1.y + (newY - e.y)⟩
                           ⟨c2.x + (newX - e.x), c2.y + (newY - e.y)⟩
                           ⟨newX, newY⟩)
  ∧ (c2.x + (newX - e.x)) - newX = c2.x - e.x
  ∧ (c2.y + (newY - e.y)) - newY = c2.y - e.y
  ∧ (c1.x + (newX - e.x)) - (c2.x + (newX - e.x)) = c1.x - c2.x
  ∧ (c1.y + (newY - e.y)) - (c2.y + (newY - e.y)) = c1.y - c2.y := by
  refine ⟨?_, by ring, by ring, by ring, by ring⟩
  simp only [updatePathGeometry, hc]

/-- **C4 (witness)** The amended theorem at the claim's concrete segment:
moving the end of `C (10,0) (20,10) (30,10)` (start `(0,0)`) to `(40,20)`
yields `control1 = (20,10)`, `control2 = (30,20)`, `end = (40,20)`. -/
theorem updatePathGeometry_curve_end_witness :
    updatePathGeometry
        [PathCmd.moveTo ⟨0, 0⟩, PathCmd.curveTo ⟨10, 0⟩ ⟨20, 10⟩ ⟨30, 10⟩] 1 40 20 =
      List.set [PathCmd.moveTo ⟨0, 0⟩, PathCmd.curveTo ⟨10, 0⟩ ⟨20, 10⟩ ⟨30, 10⟩] 1
        (.curveTo ⟨10 + (40 - 30), 0 + (20 - 10)⟩
                  ⟨20 + (40 - 30), 10 + (20 - 10)⟩ ⟨40, 20⟩)
  ∧ ((20:ℚ) + (40 - 30)) - 40 = 20 - 30
  ∧ ((10:ℚ) + (20 - 10)) - 20 = 10 - 10
  ∧ ((10:ℚ) + (40 - 30)) - (20 + (40 - 30)) = 10 - 20
  ∧ ((0:ℚ) + (20 - 10)) - (10 + (20 - 10)) = 0 - 10 :=
  updatePathGeometry_curve_end
    [PathCmd.moveTo ⟨0, 0⟩, PathCmd.curveTo ⟨10, 0⟩ ⟨20, 10⟩ ⟨30, 10⟩]
    1 ⟨10, 0⟩ ⟨20, 10⟩ ⟨30, 10⟩ 40 20 rfl

/-! ## Path segment model: the `pathSegments` chain of the path tool -/

/-- One segment of the path tool's `pathSegments` chain: `{type:'line'}`
segments carry no control points, `{type:'curve'}` segments carry two. -/
inductive Segment where
  | line (startPoint endPoint : Pt)
  | curve (startPoint endPoint control1 control2 : Pt)
deriving DecidableEq, Repr

/-- The `startPoint` field of a segment. -/
def Segment.startPt : Segment → Pt
  | .line s _ => s
  | .curve s _ _ _ => s

/-- The `endPoint` field of a segment. -/
def Segment.endPt : Segment → Pt
  | .line _ e => e
  | .curve _ e _ _ => e

/-- The start point used for a newly appended segment:
`pathSegments[pathSegments.length - 1].endPoint`.  The sources evaluate
`pathSegments[0].startPoint` when the chain is empty, which faults on an
empty array, so the value is only meaningful for nonempty chains. -/
def lastEndpoint (segs : List Segment) : Pt :=
  match segs.getLast? with
  | some s => s.endPt
  | none => ⟨0, 0⟩

/-- `startNewPath(pos)`: a fresh chain holding the initial degenerate line
segment `{start: pos, end: pos}` (the path data is `M pos.x pos.y`). -/
def startNewPath (pos : Pt) : List Segment := [.line pos pos]

/-- `createStraightSegment` / `addPointToPath`: appends
`{type:'line', start: last endpoint, end: endPoint}`. -/
def createStraightSegment (segs : List Segment) (endPoint : Pt) : List Segment :=
  segs ++ [.line (lastEndpoint segs) endPoint]

/-- `createCurvedSegment(endPoint)` with `curveStartPoint` the drag's press
point: `control1 = start + (curveStart − start)·0.3` and
`control2 = curveStart + dragVector·0.7` where
`dragVector = endPoint − curveStart`. -/
def createCurvedSegment (segs : List Segment) (curveStartPoint endPoint : Pt) :
    List Segment :=
  let startPoint := lastEndpoint segs
  let dragVector : Pt := ⟨endPoint.x - curveStartPoint.x, endPoint.y - curveStartPoint.y⟩
  let control1 : Pt := ⟨startPoint.x + (curveStartPoint.x - startPoint.x) * (3/10),
                        startPoint.y + (curveStartPoint.y - startPoint.y) * (3/10)⟩
  let control2 : Pt := ⟨curveStartPoint.x + dragVector.x * (7/10),
                        curveStartPoint.y + dragVector.y * (7/10)⟩
  segs ++ [.curve startPoint endPoint control1 control2]

/-- **C6** Appending a curve segment from a drag gesture (press at
`dragAnchor`, release at `endPoint`) to a nonempty chain produces exactly one
new `Curve` segment whose start is the chain's previous last endpoint, whose
end is `endPoint`, and whose control points are
`control1 = start + 0.3·(dragAnchor − start)` and
`control2 = dragAnchor + 0.7·(endPoint − dragAnchor)`. -/
theorem createCurvedSegment_spec (segs : List Segment) (dragAnchor endPoint : Pt)
    (hne : segs ≠ []) :
    createCurvedSegment segs dragAnchor endPoint =
      segs ++ [Segment.curve (lastEndpoint segs) endPoint
        ⟨(lastEndpoint segs).x + (3/10) * (dragAnchor.x - (lastEndpoint segs).x),
         (lastEndpoint segs).y + (3/10) * (dragAnchor.y - (lastEndpoint segs).y)⟩
        ⟨dragAnchor.x + (7/10) * (endPoint.x - dragAnchor.x),
         dragAnchor.y + (7/10) * (endPoint.y - dragAnchor.y)⟩] := by
  simp only [createCurvedSegment, List.append_cancel_left_eq, List.cons.injEq,
    Segment.curve.injEq, Pt.mk.injEq, and_true]
  and_intros <;> first | rfl | ring

/-- **C6 (witness)** Appending a curve to the one-segment chain started at
`(0,0)` with last endpoint `(0,0)`, pressing at `(10,10)` and releasing at
`(20,0)`: `control1 = (3,3)` and `control2 = (17,3)`. -/
theorem createCurvedSegment_spec_witness :
    createCurvedSegment (startNewPath ⟨0, 0⟩) ⟨10, 10⟩ ⟨20, 0⟩ =
      startNewPath ⟨0, 0⟩ ++ [Segment.curve (lastEndpoint (startNewPath ⟨0, 0⟩)) ⟨20, 0⟩
        ⟨(lastEndpoint (startNewPath ⟨0, 0⟩)).x +
            (3/10) * (10 - (lastEndpoint (startNewPath ⟨0, 0⟩)).x),
         (lastEndpoint (startNewPath ⟨0, 0⟩)).y +
            (3/10) * (10 - (lastEndpoint (startNewPath ⟨0, 0⟩)).y)⟩
        ⟨10 + (7/10) * (20 - 10), 10 + (7/10) * (0 - 10)⟩] :=
  createCurvedSegment_spec (startNewPath ⟨0, 0⟩) ⟨10, 10⟩ ⟨20, 0⟩ (by decide)

/-! ## Wire format: serialization and parsing of the segment chain

The wire string is a space-joined token sequence; since every emitted number
renders as an optional sign, digits and an optional dot — exactly what the
reading regex `[-\d.]+` accepts — the embedding works on the token list. -/

/-- One token of the path-data wire string. -/
inductive Tok where
  | cmdM
  | cmdL
  | cmdC
  | num (q : ℚ)
deriving DecidableEq, Repr

/-- The tokens one segment contributes in `buildPathDataFromSegments`:
`L ex ey` for a line, `C c1x c1y c2x c2y ex ey` for a curve. -/
def segmentTokens : Segment → List Tok
  | .line _ e => [.cmdL, .num e.x, .num e.y]
  | .curve _ e c1 c2 =>
      [.cmdC, .num c1.x, .num c1.y, .num c2.x, .num c2.y, .num e.x, .num e.y]

/-- `buildPathDataFromSegments`: the empty chain serializes to the empty
string; otherwise `M x y` for segment 0's start point followed by each
segment's `L`/`C` tokens. -/
def buildPathDataFromSegments (segs : List Segment) : List Tok :=
  match segs with
  | [] => []
  | s0 :: _ => [.cmdM, .num s0.startPt.x, .num s0.startPt.y] ++
      (segs.map segmentTokens).flatten

/-- Modelled from the spec: §4.2 assigns the Path Segment Model the duty to
"parse an existing serialized path back into segments"; the repository only
re-parses the wire string into anchor/control coordinates (the regex walks of
`showPathAnchorPointsForEditing` and `PathShape.move`) and has no function
rebuilding a segment chain.  Following the spec's grammar, after the leading
`M x y` each `L ex ey` yields a line segment and each
`C c1x c1y c2x c2y ex ey` a curve segment, the current point advancing to
each segment's end; a malformed command is skipped and parsing continues
(§7). -/
def parseSegmentsFrom (cur : Pt) : List Tok → List Segment
  | .cmdL :: .num ex :: .num ey :: rest =>
      .line cur ⟨ex, ey⟩ :: parseSegmentsFrom ⟨ex, ey⟩ rest
  | .cmdC :: .num c1x :: .num c1y :: .num c2x :: .num c2y :: .num ex :: .num ey :: rest =>
      .curve cur ⟨ex, ey⟩ ⟨c1x, c1y⟩ ⟨c2x, c2y⟩ :: parseSegmentsFrom ⟨ex, ey⟩ rest
  | _ :: rest => parseSegmentsFrom cur rest
  | [] => []

/-- Modelled from the spec: the wire string must begin with one `M x y`;
anything else parses to the empty chain. -/
def parsePathData : List Tok → List Segment
  | .cmdM :: .num x :: .num y :: rest => parseSegmentsFrom ⟨x, y⟩ rest
  | _ => []

/-- Whether a chain is connected starting at `cur`: each segment starts where
the previous one ended (`segment[i].start = segment[i-1].end`, with
`segment[0].start = cur`). -/
def chainedFrom (cur : Pt) : List Segment → Bool
  | [] => true
  | s :: rest => decide (s.startPt = cur) && chainedFrom s.endPt rest

/-- Parsing the serialized tokens of a connected chain recovers the chain. -/
lemma parseSegmentsFrom_tokens (segs : List Segment) (cur : Pt)
    (h : chainedFrom cur segs = true) :
    parseSegmentsFrom cur (segs.map segmentTokens).flatten = segs := by
  induction segs generalizing cur with
  | nil => rfl
  | cons s rest ih =>
      simp only [chainedFrom, Bool.and_eq_true, decide_eq_true_eq] at h
      obtain ⟨hstart, hchain⟩ := h
      cases s with
      | line sp e =>
          simp only [Segment.startPt] at hstart
          simp only [Segment.endPt] at hchain
          subst hstart
          exact congrArg (fun l => Segment.line sp e :: l) (ih e hchain)
      | curve sp e c1 c2 =>
          simp only [Segment.startPt] at hstart
          simp only [Segment.endPt] at hchain
          subst hstart
          exact congrArg (fun l => Segment.curve sp e c1 c2 :: l) (ih e hchain)

/-- The endpoint a chain reaches when followed from `cur`. -/
def endFrom (cur : Pt) : List Segment → Pt
  | [] => cur
  | t :: rest => endFrom t.endPt rest

/-- Connectivity of a chain extended by one segment. -/
lemma chainedFrom_append_eq (cur : Pt) (segs : List Segment) (s : Segment) :
    chainedFrom cur (segs ++ [s]) =
      (chainedFrom cur segs && decide (s.startPt = endFrom cur segs)) := by
  induction segs generalizing cur with
  | nil => simp [chainedFrom, endFrom]
  | cons t rest ih =>
      simp [chainedFrom, endFrom, ih, Bool.and_assoc]

/-- On a nonempty chain, the last segment's endpoint is the endpoint the
chain reaches from any origin. -/
lemma lastEndpoint_eq_endFrom (cur : Pt) (segs : List Segment) (hne : segs ≠ []) :
    lastEndpoint segs = endFrom cur segs := by
  induction segs generalizing cur with
  | nil => exact absurd rfl hne
  | cons t rest ih =>
      rcases rest with _ | ⟨u, rest2⟩
      · simp [lastEndpoint, endFrom]
      · rw [show endFrom cur (t :: u :: rest2) = endFrom t.endPt (u :: rest2) from rfl,
          ← ih t.endPt (by simp)]
        simp [lastEndpoint, List.getLast?_cons_cons]

/-- Appending a segment that starts at the chain's last endpoint keeps the
chain connected. -/
lemma chainedFrom_append (cur : Pt) (segs : List Segment) (s : Segment)
    (h : chainedFrom cur segs = true) (hne : segs ≠ [])
    (hs : s.startPt = lastEndpoint segs) :
    chainedFrom cur (segs ++ [s]) = true := by
  rw [chainedFrom_append_eq, h, Bool.true_and, decide_eq_true_eq, hs]
  exact lastEndpoint_eq_endFrom cur segs hne


/-- One construction step of the path tool: a click appends a straight
segment, a drag appends a curved segment. -/
inductive BuildOp where
  | lineOp (endPoint : Pt)
  | curveOp (dragAnchor endPoint : Pt)
deriving DecidableEq, Repr

/-- Applying one construction step to the chain. -/
def applyBuildOp (segs : List Segment) : BuildOp → List Segment
  | .lineOp e => createStraightSegment segs e
  | .curveOp a e => createCurvedSegment segs a e

/-- A chain built by `startNewPath` followed by a sequence of
`createStraightSegment` / `createCurvedSegment` steps. -/
def buildChain (pos : Pt) (ops : List BuildOp) : List Segment :=
  ops.foldl applyBuildOp (startNewPath pos)

/-- Every built chain is nonempty and connected from its starting position. -/
lemma buildChain_chained (pos : Pt) (ops : List BuildOp) :
    buildChain pos ops ≠ [] ∧ chainedFrom pos (buildChain pos ops) = true := by
  suffices h : ∀ (segs : List Segment), segs ≠ [] → chainedFrom pos segs = true →
      ops.foldl applyBuildOp segs ≠ [] ∧
        chainedFrom pos (ops.foldl applyBuildOp segs) = true by
    refine h (startNewPath pos) (by simp [startNewPath]) ?_
    simp [startNewPath, chainedFrom, Segment.startPt]
  induction ops with
  | nil => intro segs hne hch; exact ⟨hne, hch⟩
  | cons op rest ih =>
      intro segs hne hch
      have hstep : applyBuildOp segs op ≠ [] ∧
          chainedFrom pos (applyBuildOp segs op) = true := by
        cases op with
        | lineOp e =>
            refine ⟨by simp [applyBuildOp, createStraightSegment], ?_⟩
            exact chainedFrom_append pos segs _ hch hne rfl
        | curveOp a e =>
            refine ⟨by simp [applyBuildOp, createCurvedSegment], ?_⟩
            exact chainedFrom_append pos segs _ hch hne rfl
      simpa [List.foldl_cons] using ih (applyBuildOp segs op) hstep.1 hstep.2

/-- A connected chain starts at the chaining origin. -/
lemma chainedFrom_head_start (cur : Pt) (s : Segment) (rest : List Segment)
    (h : chainedFrom cur (s :: rest) = true) : s.startPt = cur := by
  simp only [chainedFrom, Bool.and_eq_true, decide_eq_true_eq] at h
  exact h.1

/-- **C5** For every chain built solely via the path tool's append
operations, serialization emits `M x y` for segment 0's start followed by
each segment's `L ex ey` / `C c1x c1y c2x c2y ex ey` tokens, and parsing the
serialized wire tokens recovers exactly the same segment chain. -/
theorem serialize_parse_roundtrip (pos : Pt) (ops : List BuildOp) :
    (∀ s0 rest, buildChain pos ops = s0 :: rest →
      buildPathDataFromSegments (buildChain pos ops) =
        [Tok.cmdM, Tok.num s0.startPt.x, Tok.num s0.startPt.y] ++
          ((s0 :: rest).map segmentTokens).flatten)
  ∧ parsePathData (buildPathDataFromSegments (buildChain pos ops)) =
      buildChain pos ops := by
  obtain ⟨hne, hch⟩ := buildChain_chained pos ops
  constructor
  · intro s0 rest heq
    rw [heq]
    rfl
  · rcases hcase : buildChain pos ops with _ | ⟨s0, rest⟩
    · exact absurd hcase hne
    · rw [hcase] at hch
      have hstart : s0.startPt = pos := chainedFrom_head_start pos s0 rest hch
      have hch0 : chainedFrom s0.startPt (s0 :: rest) = true := by
        rw [hstart]; exact hch
      calc parsePathData (buildPathDataFromSegments (s0 :: rest))
          = parseSegmentsFrom ⟨s0.startPt.x, s0.startPt.y⟩
              (((s0 :: rest).map segmentTokens).flatten) := rfl
        _ = parseSegmentsFrom s0.startPt (((s0 :: rest).map segmentTokens).flatten) := rfl
        _ = s0 :: rest := parseSegmentsFrom_tokens (s0 :: rest) s0.startPt hch0

/-- **C5 (witness)** Round trip on the concrete chain built at `(0,0)` by one
straight append to `(1,2)` and one curved append pressing `(3,4)`, releasing
`(5,6)`. -/
theorem serialize_parse_roundtrip_witness :
    parsePathData (buildPathDataFromSegments
        (buildChain ⟨0, 0⟩ [BuildOp.lineOp ⟨1, 2⟩, BuildOp.curveOp ⟨3, 4⟩ ⟨5, 6⟩])) =
      buildChain ⟨0, 0⟩ [BuildOp.lineOp ⟨1, 2⟩, BuildOp.curveOp ⟨3, 4⟩ ⟨5, 6⟩] :=
  (serialize_parse_roundtrip ⟨0, 0⟩
    [BuildOp.lineOp ⟨1, 2⟩, BuildOp.curveOp ⟨3, 4⟩ ⟨5, 6⟩]).2

/-! ## The repeat-points engine (`repeat-points-manager.js`) -/

/-- One sampled repeat point `{t, x, y}`. -/
structure RPoint where
  t : ℚ
  x : ℚ
  y : ℚ
deriving DecidableEq, Repr

/-- The default repeat point, used only as the fallback of list lookups. -/
def rpZero : RPoint := ⟨0, 0, 0⟩

/-- The per-shape repeat metadata `__repeatMeta`:
`{count, points, activeIndex}`. -/
structure RepeatMeta where
  count : ℤ
  points : List RPoint
  activeIndex : Option ℕ
deriving DecidableEq, Repr

/-- The metadata `getRepeatMeta` installs on first access:
`{count: 0, points: [], activeIndex: null}`. -/
def initialRepeatMeta : RepeatMeta := ⟨0, [], none⟩

/-- The parameter `t` for sample `i` in `computeRepeatPointsForElement`:
`count === 1 ? 0.5 : i / (count - 1)`. -/
def repeatParam (count : ℤ) (i : ℕ) : ℚ :=
  if count = 1 then 1/2 else (i : ℚ) / ((count : ℚ) - 1)

/-- `computeRepeatPointsForElement(element, count)`: empty for `count ≤ 0`;
for a line, `count` points linearly interpolated between `(x1,y1)` and
`(x2,y2)`; for a path, `count` points `getPointAtLength(total * t)` — the
browser's length API being external, `totalLength` and `pointAtLength` are
taken as parameters; every other tag yields no points. -/
def computeRepeatPointsForElement (e : Element) (count : ℤ)
    (totalLength : ℚ) (pointAtLength : ℚ → Pt) : List RPoint :=
  if count ≤ 0 then []
  else
    match e with
    | .shape (.line x1 y1 x2 y2 _) =>
        (List.range count.toNat).map fun i =>
          let t := repeatParam count i
          ⟨t, x1 + (x2 - x1) * t, y1 + (y2 - y1) * t⟩
    | .shape (.path _ _) =>
        (List.range count.toNat).map fun i =>
          let t := repeatParam count i
          let pt := pointAtLength (totalLength * t)
          ⟨t, pt.x, pt.y⟩
    | _ => []

/-- `createOrUpdateRepeatPoints(element, count)`: stores the count,
regenerates the points from the element's current geometry, and nulls
`activeIndex` when it no longer indexes within the new points (the
`activeIndex < 0` half of the guard cannot fire on a natural index). -/
def createOrUpdateRepeatPoints (m : RepeatMeta) (e : Element) (count : ℤ)
    (totalLength : ℚ) (pointAtLength : ℚ → Pt) : RepeatMeta :=
  let pts := computeRepeatPointsForElement e count totalLength pointAtLength
  { count := count
    points := pts
    activeIndex :=
      match m.activeIndex with
      | some i => if i < pts.length then some i else none
      | none => none }

/-- `setActiveRepeatPoint(element, index)`: clicking the active point again
deselects it (`activeIndex := null`); any other index replaces it. -/
def setActiveRepeatPoint (m : RepeatMeta) (index : ℕ) : RepeatMeta :=
  if m.activeIndex = some index then { m with activeIndex := none }
  else { m with activeIndex := some index }

/-- `getElementReferencePoint`: dispatch on the tag name, `null` for an
unsupported element kind. -/
def getElementReferencePoint : Element → Option Pt
  | .shape s => s.getReferencePoint
  | .other => none

/-- `cloneElementWithTranslation(element, dx, dy)`: `null` for an
unsupported kind, otherwise the shape's `clone()` moved by `(dx, dy)`. -/
def cloneElementWithTranslation (e : Element) (dx dy : ℚ) : Option Element :=
  match e with
  | .shape s => some (.shape (s.clone.move dx dy))
  | .other => none

/-- `handleDrawRepeatForNewElement(newElement)` acting on the document's
element list: no-op without a selected repeat point, with no sampled points,
with an out-of-range selected index (`!active`), or when the new element's
reference point cannot be determined; otherwise one translated clone per
sampled point other than the selected one, appended to the element list. -/
def handleDrawRepeatForNewElement (selected : Option (RepeatMeta × ℕ))
    (newElement : Element) (elements : List Element) : List Element :=
  match selected with
  | none => elements
  | some (m, index) =>
      if m.points.length = 0 then elements
      else
        match m.points[index]? with
        | none => elements
        | some active =>
            match getElementReferencePoint newElement with
            | none => elements
            | some ref =>
                let clones : List Element :=
                  (List.range m.points.length).filterMap fun i =>
                    if i = index then none
                    else
                      match m.points[i]? with
                      | none => none
                      | some p =>
                          cloneElementWithTranslation newElement
                            (p.x + (ref.x - active.x) - ref.x)
                            (p.y + (ref.y - active.y) - ref.y)
                elements ++ clones

/-- **C2** Sampling a line or path: empty for `count ≤ 0`; a single point at
`t = 1/2` for `count = 1` (the midpoint of a line's endpoints); for
`count > 1`, point `i` sits at `t_i = i/(count−1)` — linear interpolation of
the endpoints for a line, `pointAtLength(t·totalLength)` for a path; in
particular sampling a line with `count = 2` gives exactly its two
endpoints. -/
theorem sample_spec (x1 y1 x2 y2 : ℚ) (st : StyleAttrs) (d : List PathCmd)
    (tl : ℚ) (pal : ℚ → Pt) :
    (∀ count : ℤ, count ≤ 0 →
      computeRepeatPointsForElement (.shape (.line x1 y1 x2 y2 st)) count tl pal = []
      ∧ computeRepeatPointsForElement (.shape (.path d st)) count tl pal = [])
  ∧ computeRepeatPointsForElement (.shape (.line x1 y1 x2 y2 st)) 1 tl pal =
      [⟨1/2, (x1 + x2) / 2, (y1 + y2) / 2⟩]
  ∧ computeRepeatPointsForElement (.shape (.path d st)) 1 tl pal =
      [⟨1/2, (pal ((1/2) * tl)).x, (pal ((1/2) * tl)).y⟩]
  ∧ (∀ count : ℤ, 1 < count →
      (computeRepeatPointsForElement (.shape (.line x1 y1 x2 y2 st)) count tl pal).length =
        count.toNat
      ∧ (computeRepeatPointsForElement (.shape (.path d st)) count tl pal).length =
        count.toNat
      ∧ (∀ i : ℕ, i < count.toNat →
          (computeRepeatPointsForElement (.shape (.line x1 y1 x2 y2 st)) count tl pal)[i]? =
            some ⟨(i : ℚ) / ((count : ℚ) - 1),
                  x1 + (x2 - x1) * ((i : ℚ) / ((count : ℚ) - 1)),
                  y1 + (y2 - y1) * ((i : ℚ) / ((count : ℚ) - 1))⟩)
      ∧ (∀ i : ℕ, i < count.toNat →
          (computeRepeatPointsForElement (.shape (.path d st)) count tl pal)[i]? =
            some ⟨(i : ℚ) / ((count : ℚ) - 1),
                  (pal (((i : ℚ) / ((count : ℚ) - 1)) * tl)).x,
                  (pal (((i : ℚ) / ((count : ℚ) - 1)) * tl)).y⟩))
  ∧ computeRepeatPointsForElement (.shape (.line x1 y1 x2 y2 st)) 2 tl pal =
      [⟨0, x1, y1⟩, ⟨1, x2, y2⟩] := by
  refine ⟨?_, ?_, ?_, ?_, ?_⟩
  · intro count hc
    constructor <;> simp [computeRepeatPointsForElement, hc]
  · simp only [computeRepeatPointsForElement, repeatParam]
    norm_num [show List.range 1 = [0] from rfl, RPoint.mk.injEq]
    constructor <;> ring
  · simp only [computeRepeatPointsForElement, repeatParam]
    norm_num [show List.range 1 = [0] from rfl, RPoint.mk.injEq, mul_comm]
  · intro count hc
    have hc0 : ¬ count ≤ 0 := by omega
    have hc1 : ¬ count = 1 := by omega
    refine ⟨?_, ?_, ?_, ?_⟩
    · simp [computeRepeatPointsForElement, hc0]
    · simp [computeRepeatPointsForElement, hc0]
    · intro i hi
      simp [computeRepeatPointsForElement, hc0, repeatParam, hc1,
        List.getElem?_map, List.getElem?_range, hi]
    · intro i hi
      simp [computeRepeatPointsForElement, hc0, repeatParam, hc1,
        List.getElem?_map, List.getElem?_range, hi, mul_comm]
  · simp only [computeRepeatPointsForElement, repeatParam]
    norm_num [show List.range (2:ℤ).toNat = [0, 1] from rfl, RPoint.mk.injEq]

/-- A constant point-at-length function, used to instantiate the external
path-length API at concrete inputs. -/
def constPal : ℚ → Pt := fun _ => ⟨0, 0⟩

/-- **C2 (witness)** The sampling theorem at the line `(0,0)–(100,0)` and
the one-command path, with `totalLength = 7`: empty at `count = −1`, the
midpoint at `count = 1`, five points at `count = 5`, endpoints at
`count = 2`. -/
theorem sample_spec_witness :
    (computeRepeatPointsForElement (.shape (.line 0 0 100 0 noStyle)) (-1) 7 constPal = []
      ∧ computeRepeatPointsForElement
          (.shape (.path [PathCmd.moveTo ⟨0, 0⟩] noStyle)) (-1) 7 constPal = [])
  ∧ computeRepeatPointsForElement (.shape (.line 0 0 100 0 noStyle)) 1 7 constPal =
      [⟨1/2, (0 + 100) / 2, (0 + 0) / 2⟩]
  ∧ ((computeRepeatPointsForElement (.shape (.line 0 0 100 0 noStyle)) 5 7 constPal).length =
        (5:ℤ).toNat
      ∧ (computeRepeatPointsForElement
          (.shape (.path [PathCmd.moveTo ⟨0, 0⟩] noStyle)) 5 7 constPal).length = (5:ℤ).toNat
      ∧ (∀ i : ℕ, i < (5:ℤ).toNat →
          (computeRepeatPointsForElement (.shape (.line 0 0 100 0 noStyle)) 5 7 constPal)[i]? =
            some ⟨(i : ℚ) / (((5:ℤ) : ℚ) - 1),
                  0 + (100 - 0) * ((i : ℚ) / (((5:ℤ) : ℚ) - 1)),
                  0 + (0 - 0) * ((i : ℚ) / (((5:ℤ) : ℚ) - 1))⟩)
      ∧ (∀ i : ℕ, i < (5:ℤ).toNat →
          (computeRepeatPointsForElement
              (.shape (.path [PathCmd.moveTo ⟨0, 0⟩] noStyle)) 5 7 constPal)[i]? =
            some ⟨(i : ℚ) / (((5:ℤ) : ℚ) - 1),
                  (constPal (((i : ℚ) / (((5:ℤ) : ℚ) - 1)) * 7)).x,
                  (constPal (((i : ℚ) / (((5:ℤ) : ℚ) - 1)) * 7)).y⟩))
  ∧ computeRepeatPointsForElement (.shape (.line 0 0 100 0 noStyle)) 2 7 constPal =
      [⟨0, 0, 0⟩, ⟨1, 100, 0⟩] := by
  have h := sample_spec 0 0 100 0 noStyle [PathCmd.moveTo ⟨0, 0⟩] 7 constPal
  exact ⟨h.1 (-1) (by decide), h.2.1, h.2.2.2.1 5 (by decide), h.2.2.2.2⟩

/-! ## C8: the activeIndex invariant over the engine's operations -/

/-- One operation of the engine on a shape's repeat metadata:
`createOrUpdateRepeatPoints` with any count and any current geometry (this is
also the call regenerating points after a geometry change), or
`setActiveRepeatPoint` from a click on a rendered marker —
`renderRepeatPoints` creates one marker per index `i < points.length`, so a
click can only supply an in-range index. -/
inductive RepeatStep : RepeatMeta → RepeatMeta → Prop where
  | update (m : RepeatMeta) (e : Element) (count : ℤ) (tl : ℚ) (pal : ℚ → Pt) :
      RepeatStep m (createOrUpdateRepeatPoints m e count tl pal)
  | setActive (m : RepeatMeta) (i : ℕ) (h : i < m.points.length) :
      RepeatStep m (setActiveRepeatPoint m i)

/-- The metadata states reachable from the freshly installed
`__repeatMeta` through the engine's operations. -/
inductive ReachableRepeatMeta : RepeatMeta → Prop where
  | init : ReachableRepeatMeta initialRepeatMeta
  | step {m1 m2 : RepeatMeta} :
      ReachableRepeatMeta m1 → RepeatStep m1 m2 → ReachableRepeatMeta m2

/-- Regenerating the points re-establishes the activeIndex bound. -/
lemma activeIndexValid_update (m : RepeatMeta) (e : Element) (count : ℤ)
    (tl : ℚ) (pal : ℚ → Pt) :
    ∀ i, (createOrUpdateRepeatPoints m e count tl pal).activeIndex = some i →
      i < (createOrUpdateRepeatPoints m e count tl pal).points.length := by
  intro i hi
  simp only [createOrUpdateRepeatPoints] at hi ⊢
  rcases hma : m.activeIndex with _ | j
  · rw [hma] at hi; simp at hi
  · simp only [hma] at hi
    by_cases hj : j < (computeRepeatPointsForElement e count tl pal).length
    · rw [if_pos hj] at hi
      obtain rfl : j = i := by simpa using hi
      simpa using hj
    · rw [if_neg hj] at hi; simp at hi

/-- Toggling the active point from a rendered marker keeps the bound. -/
lemma activeIndexValid_setActive (m : RepeatMeta) (j : ℕ) (hj : j < m.points.length) :
    ∀ i, (setActiveRepeatPoint m j).activeIndex = some i →
      i < (setActiveRepeatPoint m j).points.length := by
  intro i hi
  simp only [setActiveRepeatPoint] at hi ⊢
  by_cases heq : m.activeIndex = some j
  · rw [if_pos heq] at hi; simp at hi
  · rw [if_neg heq] at hi
    obtain rfl : j = i := by simpa using hi
    simpa [heq] using hj

/-- **C8** On every reachable repeat metadata, `activeIndex` is `null` or a
valid index into `points`; and whenever the points are regenerated with a
length not exceeding the current `activeIndex`, the index is invalidated to
`null`. -/
theorem activeIndex_invariant :
    (∀ m, ReachableRepeatMeta m →
      ∀ i, m.activeIndex = some i → i < m.points.length)
  ∧ (∀ (m : RepeatMeta) (e : Element) (count : ℤ) (tl : ℚ) (pal : ℚ → Pt) (i : ℕ),
      m.activeIndex = some i →
      (computeRepeatPointsForElement e count tl pal).length ≤ i →
      (createOrUpdateRepeatPoints m e count tl pal).activeIndex = none) := by
  constructor
  · intro m hm
    induction hm with
    | init => intro i hi; simp [initialRepeatMeta] at hi
    | step _ hstep ih =>
        cases hstep with
        | update e count tl pal => exact activeIndexValid_update _ e count tl pal
        | setActive j hj => exact activeIndexValid_setActive _ j hj
  · intro m e count tl pal i hi hle
    simp only [createOrUpdateRepeatPoints, hi]
    rw [if_neg (by omega)]

/-- A line element used to instantiate the engine at concrete inputs. -/
def demoLineE : Element := .shape (.line 0 0 100 0 noStyle)

/-- **C8 (witness)** The invariant at the concrete state reached by creating
3 repeat points on a line and activating index 1; and the invalidation when
a metadata with `activeIndex = 2` is regenerated with a single point. -/
theorem activeIndex_invariant_witness :
    (∀ i, (setActiveRepeatPoint
        (createOrUpdateRepeatPoints initialRepeatMeta demoLineE 3 0 constPal) 1).activeIndex =
          some i →
      i < (setActiveRepeatPoint
        (createOrUpdateRepeatPoints initialRepeatMeta demoLineE 3 0 constPal) 1).points.length)
  ∧ (createOrUpdateRepeatPoints ⟨3, [rpZero, rpZero, rpZero], some 2⟩
      demoLineE 1 0 constPal).activeIndex = none := by
  constructor
  · refine activeIndex_invariant.1 _ ?_
    refine ReachableRepeatMeta.step
      (ReachableRepeatMeta.step ReachableRepeatMeta.init
        (RepeatStep.update initialRepeatMeta demoLineE 3 0 constPal))
      (RepeatStep.setActive _ 1 ?_)
    norm_num [createOrUpdateRepeatPoints, computeRepeatPointsForElement, demoLineE]
  · refine activeIndex_invariant.2 _ demoLineE 1 0 constPal 2 rfl ?_
    norm_num [computeRepeatPointsForElement, demoLineE]

/-! ## C9: how the repeat count reaching the sampler is computed -/

/-- The count of `handleCreateRepeatPoints` (the create-repeat-points
button): `Math.max(1, Math.min(500, parseInt(input, 10) || 10))`.  `raw` is
the `parseInt` result, `none` standing for `NaN`; through `|| 10` both `NaN`
and `0` fall back to `10` before clamping. -/
def handleCreateRepeatPointsCount (raw : Option ℤ) : ℤ :=
  let v : ℤ :=
    match raw with
    | none => 10
    | some n => if n = 0 then 10 else n
  max 1 (min 500 v)

/-- The repeat-count input's `change` listener (`setupEventListeners`):
`createOrUpdateRepeatPoints(selected, parseInt(repeatCountInput.value, 10))`
— the parsed value is passed through without clamping. -/
def repeatCountChangeUpdate (m : RepeatMeta) (e : Element) (raw : ℤ)
    (tl : ℚ) (pal : ℚ → Pt) : RepeatMeta :=
  createOrUpdateRepeatPoints m e raw tl pal

/-- **C9 (counterexample)** A repeat-count input change with value `1000`
samples `1000` points on a line — the count used is not clamped to
`[1, 500]` on this path. -/
theorem repeatCount_unclamped_on_change :
    (repeatCountChangeUpdate initialRepeatMeta demoLineE 1000 0 constPal).points.length = 1000
  ∧ ¬ ((1000 : ℕ) ≤ 500) := by
  constructor
  · have ht : ((1000 : ℤ)).toNat = 1000 := rfl
    norm_num [repeatCountChangeUpdate, createOrUpdateRepeatPoints,
      computeRepeatPointsForElement, demoLineE, ht]
  · decide

/-- **C9 (amended)** The create-repeat-points button clamps its count to
`[1, 500]` (a missing or zero parsed value first defaulting to `10`), but
the repeat-count input's change listener passes the parsed value through
unclamped: the stored count equals the raw value, and for a positive raw
value that many points are sampled on a line. -/
theorem repeatCount_clamp_spec (raw : Option ℤ) (m : RepeatMeta) (e : Element)
    (n : ℤ) (tl : ℚ) (pal : ℚ → Pt) (x1 y1 x2 y2 : ℚ) (st : StyleAttrs) :
    1 ≤ handleCreateRepeatPointsCount raw
  ∧ handleCreateRepeatPointsCount raw ≤ 500
  ∧ (repeatCountChangeUpdate m e n tl pal).count = n
  ∧ (0 < n →
      ((repeatCountChangeUpdate m (.shape (.line x1 y1 x2 y2 st)) n tl pal).points).length =
        n.toNat) := by
  refine ⟨?_, ?_, rfl, ?_⟩
  · rcases raw with _ | v
    · decide
    · by_cases hv : v = 0
      · subst hv; decide
      · simp only [handleCreateRepeatPointsCount]
        rw [if_neg hv]
        exact le_max_left 1 _
  · rcases raw with _ | v
    · decide
    · by_cases hv : v = 0
      · subst hv; decide
      · simp only [handleCreateRepeatPointsCount]
        rw [if_neg hv]
        exact max_le (by norm_num) (min_le_left 500 v)
  · intro hn
    simp [repeatCountChangeUpdate, createOrUpdateRepeatPoints,
      computeRepeatPointsForElement, show ¬ n ≤ 0 by omega]

/-- **C9 (witness)** The amended theorem at raw value `1000`: the button
path would clamp into `[1, 500]`, while the change path stores count `1000`
and samples `1000` points. -/
theorem repeatCount_clamp_spec_witness :
    1 ≤ handleCreateRepeatPointsCount (some 1000)
  ∧ handleCreateRepeatPointsCount (some 1000) ≤ 500
  ∧ (repeatCountChangeUpdate initialRepeatMeta (.shape (.line 0 0 100 0 noStyle))
      1000 0 constPal).count = 1000
  ∧ ((repeatCountChangeUpdate initialRepeatMeta (.shape (.line 0 0 100 0 noStyle))
      1000 0 constPal).points).length = (1000:ℤ).toNat := by
  have h := repeatCount_clamp_spec (some 1000) initialRepeatMeta
    (.shape (.line 0 0 100 0 noStyle)) 1000 0 constPal 0 0 100 0 noStyle
  exact ⟨h.1, h.2.1, h.2.2.1, h.2.2.2 (by decide)⟩

/-! ## C1 and C10: cloning a newly drawn element to the repeat points -/

/-- Whether a shape's reference point is determined and its translation
effective: always for line/rect/circle; for a path, its data must begin
with an `M` command — which holds for every path the drawing tools create
(`startNewPath` writes `M x y` first). -/
def shapeWellFormed : Shape → Bool
  | .path d _ => headIsMove d
  | _ => true

/-- The reference point of a well-formed shape (fallback `(0,0)` is never
reached on well-formed shapes). -/
def refPt (s : Shape) : Pt := (Shape.getReferencePoint s).getD ⟨0, 0⟩

/-- The clone list as the spec describes it (for comparison with
`handleDrawRepeatForNewElement`): for each sampled index `i ≠ activeIndex`
in order, the drawn shape translated by
`(p_i.x − active.x, p_i.y − active.y)`. -/
def cloneForNewElementSpec (pts : List RPoint) (idx : ℕ) (s : Shape) : List Element :=
  ((List.range pts.length).filter fun i => decide (i ≠ idx)).map
    fun i => Element.shape (s.move ((pts.getD i rpZero).x - (pts.getD idx rpZero).x)
                                   ((pts.getD i rpZero).y - (pts.getD idx rpZero).y))

/-- A well-formed shape has a determined reference point. -/
lemma getReferencePoint_of_wellFormed (s : Shape) (h : shapeWellFormed s = true) :
    s.getReferencePoint = some (refPt s) := by
  cases s with
  | line x1 y1 x2 y2 st => rfl
  | rect x y w ht st => rfl
  | circle cx cy r st => rfl
  | path d st =>
      cases d with
      | nil => simp [shapeWellFormed, headIsMove] at h
      | cons c rest =>
          cases c with
          | moveTo p => rfl
          | lineTo p => simp [shapeWellFormed, headIsMove] at h
          | curveTo c1 c2 e => simp [shapeWellFormed, headIsMove] at h

/-- Translating a well-formed shape translates its reference point. -/
lemma getReferencePoint_move (s : Shape) (h : shapeWellFormed s = true) (dx dy : ℚ) :
    (s.move dx dy).getReferencePoint = some ⟨(refPt s).x + dx, (refPt s).y + dy⟩ := by
  cases s with
  | line x1 y1 x2 y2 st => rfl
  | rect x y w ht st => rfl
  | circle cx cy r st => rfl
  | path d st =>
      cases d with
      | nil => simp [shapeWellFormed, headIsMove] at h
      | cons c rest =>
          cases c with
          | moveTo p => rfl
          | lineTo p => simp [shapeWellFormed, headIsMove] at h
          | curveTo c1 c2 e => simp [shapeWellFormed, headIsMove] at h

/-- An in-range optional lookup yields the `getD` value. -/
lemma getD_lookup {α : Type} (l : List α) (i : ℕ) (d : α) (h : i < l.length) :
    l[i]? = some (l.getD i d) := by
  rw [List.getD_eq_getElem?_getD, List.getElem?_eq_getElem h, Option.getD_some]

/-- `filterMap` over a range with one index masked, when the body is `some`
everywhere else, is a `filter`-then-`map`. -/
lemma filterMap_range_ne {α : Type} (n idx : ℕ) (f : ℕ → Option α) (g : ℕ → α)
    (hf : ∀ i, i < n → i ≠ idx → f i = some (g i)) :
    ((List.range n).filterMap fun i => if i = idx then none else f i) =
      ((List.range n).filter fun i => decide (i ≠ idx)).map g := by
  induction n with
  | zero => rfl
  | succ k ih =>
      rw [List.range_succ, List.filterMap_append, List.filter_append, List.map_append,
        ih (fun i hi hne => hf i (Nat.lt_succ_of_lt hi) hne)]
      congr 1
      by_cases hk : k = idx
      · subst hk
        simp
      · simp [hk, hf k (Nat.lt_succ_self k) hk]

/-- Dropping one in-range index from a range loses exactly one element. -/
lemma length_filter_ne_range (n idx : ℕ) (h : idx < n) :
    (((List.range n).filter fun i => decide (i ≠ idx)).length) = n - 1 := by
  induction n with
  | zero => omega
  | succ k ih =>
      rw [List.range_succ, List.filter_append, List.length_append]
      by_cases hk : idx = k
      · subst hk
        have hall : ((List.range idx).filter fun i => decide (i ≠ idx)) = List.range idx := by
          apply List.filter_eq_self.mpr
          intro a ha
          simp only [decide_eq_true_eq]
          exact Nat.ne_of_lt (List.mem_range.mp ha)
        have hsingle : (List.filter (fun i => decide (i ≠ idx)) [idx]) = [] := by simp
        rw [hall, hsingle]
        simp only [List.length_range, List.length_nil]
        omega
      · have hik : idx < k := by omega
        have hki : k ≠ idx := fun he => hk he.symm
        have hsingle : (List.filter (fun i => decide (i ≠ idx)) [k]) = [k] := by
          simp [hki]
        rw [ih hik, hsingle]
        simp only [List.length_cons, List.length_nil]
        omega

/-- **C1** With a template whose sampled points contain the selected active
index, and a newly drawn shape of one of the four kinds, the handler appends
to the element list exactly the spec's clone list: one clone per sampled
point at index `i ≠ activeIndex`, each equal to the drawn shape translated
by `(p_i − active)` — so `points.length − 1` clones, each clone's reference
point at `p_i + (ref − active)`; the existing elements (the drawn shape
among them) are untouched, and for `points.length ≤ 1` no clone at all is
produced. -/
theorem cloneForNewElement_correct (m : RepeatMeta) (idx : ℕ) (s : Shape)
    (elements : List Element) (hidx : idx < m.points.length)
    (hwf : shapeWellFormed s = true) :
    handleDrawRepeatForNewElement (some (m, idx)) (.shape s) elements =
      elements ++ cloneForNewElementSpec m.points idx s
  ∧ (cloneForNewElementSpec m.points idx s).length = m.points.length - 1
  ∧ (∀ i, i < m.points.length → i ≠ idx →
      getElementReferencePoint
          (Element.shape (s.move
            ((m.points.getD i rpZero).x - (m.points.getD idx rpZero).x)
            ((m.points.getD i rpZero).y - (m.points.getD idx rpZero).y))) =
        some ⟨(m.points.getD i rpZero).x + ((refPt s).x - (m.points.getD idx rpZero).x),
              (m.points.getD i rpZero).y + ((refPt s).y - (m.points.getD idx rpZero).y)⟩)
  ∧ (m.points.length ≤ 1 →
      handleDrawRepeatForNewElement (some (m, idx)) (.shape s) elements = elements) := by
  have hact : m.points[idx]? = some (m.points.getD idx rpZero) :=
    getD_lookup m.points idx rpZero hidx
  have href : getElementReferencePoint (.shape s) = some (refPt s) := by
    simpa [getElementReferencePoint] using getReferencePoint_of_wellFormed s hwf
  have hmain : handleDrawRepeatForNewElement (some (m, idx)) (.shape s) elements =
      elements ++ cloneForNewElementSpec m.points idx s := by
    simp only [handleDrawRepeatForNewElement, hact, href]
    rw [if_neg (show ¬ m.points.length = 0 by omega)]
    congr 1
    simp only [cloneForNewElementSpec]
    refine filterMap_range_ne _ _ _ _ ?_
    intro i hi hne
    have hpi : m.points[i]? = some (m.points.getD i rpZero) :=
      getD_lookup m.points i rpZero hi
    rw [hpi]
    simp only [cloneElementWithTranslation, Shape.clone]
    have hA : (m.points.getD i rpZero).x + ((refPt s).x - (m.points.getD idx rpZero).x) -
        (refPt s).x = (m.points.getD i rpZero).x - (m.points.getD idx rpZero).x := by ring
    have hB : (m.points.getD i rpZero).y + ((refPt s).y - (m.points.getD idx rpZero).y) -
        (refPt s).y = (m.points.getD i rpZero).y - (m.points.getD idx rpZero).y := by ring
    rw [hA, hB]
  refine ⟨hmain, ?_, ?_, ?_⟩
  · simp only [cloneForNewElementSpec, List.length_map]
    exact length_filter_ne_range _ _ hidx
  · intro i hi hne
    simp only [getElementReferencePoint]
    rw [getReferencePoint_move s hwf]
    simp only [Option.some.injEq, Pt.mk.injEq]
    constructor <;> ring
  · intro hle
    have h1 : m.points.length = 1 := by omega
    have h0 : idx = 0 := by omega
    subst h0
    rw [hmain]
    simp [cloneForNewElementSpec, h1, show List.range 1 = [0] from rfl]

/-- The sampled points of the spec's scenario: five points along the line
`(0,0)–(100,0)`. -/
def demoPoints : List RPoint :=
  [⟨0, 0, 0⟩, ⟨1/4, 25, 0⟩, ⟨1/2, 50, 0⟩, ⟨3/4, 75, 0⟩, ⟨1, 100, 0⟩]

/-- The metadata of the scenario: 5 points, index 2 active. -/
def demoMeta : RepeatMeta := ⟨5, demoPoints, some 2⟩

/-- The newly drawn circle of the scenario: center `(50,50)`, radius 10. -/
def demoCircle : Shape := .circle 50 50 10 noStyle

/-- **C1 (witness)** The cloning theorem at the spec's scenario: five points
on a line, active index 2, a fresh circle at `(50,50)`. -/
theorem cloneForNewElement_correct_witness :
    handleDrawRepeatForNewElement (some (demoMeta, 2)) (.shape demoCircle)
        [Element.shape demoCircle] =
      [Element.shape demoCircle] ++ cloneForNewElementSpec demoMeta.points 2 demoCircle
  ∧ (cloneForNewElementSpec demoMeta.points 2 demoCircle).length =
      demoMeta.points.length - 1
  ∧ (∀ i, i < demoMeta.points.length → i ≠ 2 →
      getElementReferencePoint
          (Element.shape (demoCircle.move
            ((demoMeta.points.getD i rpZero).x - (demoMeta.points.getD 2 rpZero).x)
            ((demoMeta.points.getD i rpZero).y - (demoMeta.points.getD 2 rpZero).y))) =
        some ⟨(demoMeta.points.getD i rpZero).x +
                ((refPt demoCircle).x - (demoMeta.points.getD 2 rpZero).x),
              (demoMeta.points.getD i rpZero).y +
                ((refPt demoCircle).y - (demoMeta.points.getD 2 rpZero).y)⟩)
  ∧ (demoMeta.points.length ≤ 1 →
      handleDrawRepeatForNewElement (some (demoMeta, 2)) (.shape demoCircle)
        [Element.shape demoCircle] = [Element.shape demoCircle]) :=
  cloneForNewElement_correct demoMeta 2 demoCircle [Element.shape demoCircle]
    (by decide) rfl

/-- An out-of-scope-reference no-op of the clone handler. -/
lemma handleDraw_noop_of_ref_none (m : RepeatMeta) (idx : ℕ) (e : Element)
    (els : List Element) (h : getElementReferencePoint e = none) :
    handleDrawRepeatForNewElement (some (m, idx)) e els = els := by
  by_cases h0 : m.points.length = 0
  · simp [handleDrawRepeatForNewElement, h0]
  · rcases hact : m.points[idx]? with _ | a
    · simp [handleDrawRepeatForNewElement, h0, hact]
    · simp [handleDrawRepeatForNewElement, h0, hact, h]

/-- **C10** The cloning step is a silent no-op — the element list is
returned unchanged and the drawn element untouched — when no repeat point is
selected, when the template's sampled points are empty, when the drawn
element's reference point cannot be determined, in particular for an
unsupported element kind and for a path whose data has no `M` command. -/
theorem cloneForNewElement_noop (m : RepeatMeta) (idx : ℕ) (e : Element)
    (els : List Element) (d : List PathCmd) (st : StyleAttrs) :
    handleDrawRepeatForNewElement none e els = els
  ∧ (m.points = [] → handleDrawRepeatForNewElement (some (m, idx)) e els = els)
  ∧ (getElementReferencePoint e = none →
      handleDrawRepeatForNewElement (some (m, idx)) e els = els)
  ∧ handleDrawRepeatForNewElement (some (m, idx)) Element.other els = els
  ∧ (findFirstMove d = none →
      handleDrawRepeatForNewElement (some (m, idx)) (.shape (.path d st)) els = els) := by
  refine ⟨rfl, ?_, ?_, ?_, ?_⟩
  · intro h
    simp [handleDrawRepeatForNewElement, h]
  · intro h
    exact handleDraw_noop_of_ref_none m idx e els h
  · exact handleDraw_noop_of_ref_none m idx .other els rfl
  · intro h
    exact handleDraw_noop_of_ref_none m idx _ els
      (by simp [getElementReferencePoint, Shape.getReferencePoint, h])

/-- **C10 (witness)** The no-op theorem at an empty metadata, the empty
path (whose data has no `M`) and the unsupported element kind. -/
theorem cloneForNewElement_noop_witness :
    handleDrawRepeatForNewElement none (.shape (.path [] noStyle)) [] = []
  ∧ handleDrawRepeatForNewElement (some (initialRepeatMeta, 0))
      (.shape (.path [] noStyle)) [] = []
  ∧ handleDrawRepeatForNewElement (some (initialRepeatMeta, 0))
      (.shape (.path [] noStyle)) [] = []
  ∧ handleDrawRepeatForNewElement (some (initialRepeatMeta, 0)) Element.other [] = []
  ∧ handleDrawRepeatForNewElement (some (initialRepeatMeta, 0))
      (.shape (.path [] noStyle)) [] = [] := by
  have h := cloneForNewElement_noop initialRepeatMeta 0
    (.shape (.path [] noStyle)) [] [] noStyle
  exact ⟨h.1, h.2.1 rfl, h.2.2.1 rfl, h.2.2.2.1, h.2.2.2.2 rfl⟩

end Repeater
